import Mathlib

/-!
Verification development for the FlameCrafter profile-to-tree pipeline
(src/include/flamegraph.hpp, src/include/parallel_flamegraph.hpp).

The C++ code is shallowly embedded: string_views become `List Char`,
`size_t` counters become `Nat`, `double` quantities that only feed exact
comparisons become `Rat`, and the imperative loops become folds and
structural recursions.  Each definition carries a comment naming the
source function it embeds.
-/

deriving instance DecidableEq for Except

namespace FlameCrafter

/-! ## Characters, trimming, line scanning -/

/-- The whitespace set `" \t\r\n"` used by `trim` in flamegraph.hpp. -/
def isWs (c : Char) : Bool :=
  c == ' ' || c == '\t' || c == '\r' || c == '\n'

/-- Embeds `trim` (flamegraph.hpp): strip leading and trailing
`" \t\r\n"` from a view. -/
def trim (l : List Char) : List Char :=
  ((l.dropWhile isWs).reverse.dropWhile isWs).reverse

/-- Split a buffer at every newline character; a buffer with `n`
newlines yields `n+1` pieces (the `\n` separators are dropped). -/
def splitNl (l : List Char) : List (List Char) :=
  match l with
  | [] => [[]]
  | c :: rest =>
    let ps := splitNl rest
    if c == '\n' then [] :: ps
    else match ps with
      | [] => [[c]]
      | p :: ps' => (c :: p) :: ps'

/-- Embeds the sequence of lines yielded by `LineScanner.next_trimmed_line`
(flamegraph.hpp): each line ends at `\n` or EOF and is trimmed; a final
`\n` does not open an extra empty line, and an empty buffer yields no
lines. -/
def scannerLines (buf : List Char) : List (List Char) :=
  match buf with
  | [] => []
  | _ =>
    let ps := splitNl buf
    (if buf.getLast? == some '\n' then ps.dropLast else ps).map trim

/-! ## Frames and samples -/

/-- Embeds `struct Frame`: a name view, the function/library kind flag,
the already-bracketed flag, and the mutable hash memo.  `Frame::operator==`
ignores the memo (see `frameBEq`). -/
structure Frame where
  name : List Char
  is_func : Bool
  lib_include_brackets : Bool
  precomputed_hash : Nat
deriving DecidableEq, Repr

/-- A frame as built by `Frame(name)` (is_func = true, brackets = false,
memo initialised to 0). -/
def Frame.ofName (n : List Char) : Frame := ⟨n, true, false, 0⟩

/-- Embeds `Frame::operator==`: compares kind, bracket flag and name; the
cached hash does not participate. -/
def frameBEq (a b : Frame) : Bool :=
  a.is_func == b.is_func && a.lib_include_brackets == b.lib_include_brackets &&
    a.name == b.name

/-- Embeds `StackSamplesContext::StackSample`: frame list, occurrence
count (initialised to 1), process name and microsecond timestamp. -/
structure StackSample where
  frames : List Frame
  count : Nat := 1
  process_name : List Char := []
  timestamp : Nat := 0
deriving DecidableEq, Repr

/-- Embeds `StackSample::is_valid`: at least one frame and positive count. -/
def StackSample.is_valid (s : StackSample) : Bool :=
  !s.frames.isEmpty && decide (0 < s.count)

/-- Embeds `StackSamples::move_valid_sample` (and the identical
`push_valid_sample` of the parallel parser variant): when the current
sample has frames, reverse them to root-to-leaf order, push the sample if
valid, and leave the current sample empty (moved-from / reset). -/
def moveValidSample (samples : List StackSample) (s : StackSample) :
    List StackSample × StackSample :=
  if s.frames.isEmpty then (samples, s)
  else
    let s' := { s with frames := s.frames.reverse }
    (if s'.is_valid then samples ++ [s'] else samples, { s with frames := [] })

/-! ## GenericTextParser -/

/-- One iteration of the `GenericTextParser::parse` loop: a non-blank,
non-`#` line appends a frame; then — unconditionally, exactly as in the
source — a non-empty current sample is flushed via `move_valid_sample`. -/
def genericStep (st : List StackSample × StackSample) (line : List Char) :
    List StackSample × StackSample :=
  let (samples, cur) := st
  let cur :=
    if !line.isEmpty && line.headD ' ' != '#' then
      { cur with frames := cur.frames ++ [Frame.ofName line] }
    else cur
  if !cur.frames.isEmpty then moveValidSample samples cur
  else (samples, cur)

/-- Embeds `GenericTextParser::parse`: run `genericStep` over the scanner
lines, then flush a leftover sample at EOF. -/
def genericParse (buf : List Char) : List StackSample :=
  let st := (scannerLines buf).foldl genericStep ([], { frames := [] })
  if !st.2.frames.isEmpty then (moveValidSample st.1 st.2).1 else st.1

/-! ## PerfScriptParser helpers -/

/-- `std::string_view::find(c, from)` as an `Option Nat` over `List Char`. -/
def findFrom (p : Char → Bool) (l : List Char) (start : Nat) : Option Nat :=
  ((l.drop start).findIdx? p).map (· + start)

/-- `std::string_view::find(c)`. -/
def findIdx (p : Char → Bool) (l : List Char) : Option Nat :=
  l.findIdx? p

/-- `std::string_view::rfind(c, pos)`: the largest index `i ≤ pos` with
`p l[i]`; `rfind(c)` (search the whole view) is `rfindIdx p l (l.length)`. -/
def rfindIdx (p : Char → Bool) (l : List Char) (pos : Nat) : Option Nat :=
  ((List.range (min (pos + 1) l.length)).filter
    (fun i => p (l.getD i ' '))).getLast?

/-- `substr(pos, len)` on a view. -/
def substr (l : List Char) (pos len : Nat) : List Char :=
  (l.drop pos).take len

/-- Embeds `PerfScriptParser::extract_process_name`: the prefix of the
header before the first space; no space at all yields the empty view. -/
def extractProcessName (l : List Char) : List Char :=
  match findIdx (· == ' ') l with
  | none => []
  | some e => l.take e

/-- Digits at the front of a token (what `strtod` consumes before a
non-digit). -/
def leadingDigits (l : List Char) : List Char :=
  l.takeWhile (fun c => c.isDigit)

/-- Numeric value of a digit string. -/
def digitsToNat (l : List Char) : Nat :=
  l.foldl (fun a c => a * 10 + (c.toNat - 48)) 0

/-- The microsecond conversion of `extract_timestamp`: `strtod` reads the
decimal prefix `i.f` of the token and the result is
`(uint64_t)(value * 1000000)`, i.e. the floor of the exact product (the
double rounding is not modelled; it is exact on the short literals the
claims evaluate). -/
def timestampMicro (tok : List Char) : Nat :=
  let ip := leadingDigits tok
  let rest := tok.drop ip.length
  let fp := if rest.headD ' ' == '.' then leadingDigits (rest.drop 1) else []
  digitsToNat ip * 1000000 + digitsToNat fp * 1000000 / 10 ^ fp.length

/-- Embeds `PerfScriptParser::extract_timestamp`: the token between the
last space before the first `:` and that `:`, read as fractional seconds
and converted to microseconds.  `parse_line` only reaches this on lines
containing `:`, so the colon-free branch (dead in the pipeline) returns 0. -/
def extractTimestamp (l : List Char) : Nat :=
  match findIdx (· == ':') l with
  | none => 0
  | some e =>
    match rfindIdx (· == ' ') l e with
    | none => 0
    | some s =>
      if e ≤ s then 0
      else timestampMicro (substr l (s + 1) (e - s - 1))

/-- Embeds `PerfScriptParser::parse_perf_stack_frame`.  The hex address
token before the first space is skipped; a trailing `(...)` names the
library; the function token loses a `+0x...` suffix unless it is the
literal `[unknown]`; the library is reduced to its basename and marked
already-bracketed when of the form `[...]`; a non-empty resolved function
gives a function frame, otherwise the library gives a library frame.
(`substr(0, paren_start - 1)` underflows for `paren_start == 0`, which
`size_t` turns into "take everything"; that clamp is spelled out here.) -/
def parsePerfStackFrame (line : List Char) : Frame :=
  match findIdx (· == ' ') line with
  | none => Frame.ofName []
  | some sp =>
    let content := line.drop (sp + 1)
    let parenStart := rfindIdx (· == '(') content content.length
    let parenEnd := parenStart.bind (fun ps => findFrom (· == ')') content ps)
    let (func0, lib0) :=
      match parenStart, parenEnd with
      | some ps, some pe =>
        (content.take (if ps == 0 then content.length else ps - 1),
         substr content (ps + 1) (pe - ps - 1))
      | _, _ => (content, [])
    let func :=
      if func0 == "[unknown]".data then func0
      else match findIdx (· == '+') func0 with
        | some plus => func0.take plus
        | none => func0
    let (lib, brackets) :=
      if lib0.isEmpty then (lib0, false)
      else
        let lib1 := match rfindIdx (· == '/') lib0 lib0.length with
          | some sl => lib0.drop (sl + 1)
          | none => lib0
        (lib1, lib1.headD ' ' == '[' && lib1.getLastD ' ' == ']')
    if !func.isEmpty && func != "[unknown]".data then Frame.ofName func
    else ⟨lib, false, brackets, 0⟩

/-- Embeds `PerfScriptParser::parse_line`: outside a stack, a `:`-bearing
line is a header (process name and timestamp are extracted) and opens a
stack; inside a stack, a line is parsed as a frame and appended unless it
resolved to an empty name; other lines are ignored. -/
def perfParseLine (line : List Char) (st : StackSample × Bool) :
    StackSample × Bool :=
  let (cur, reading) := st
  if !reading && (findIdx (· == ':') line).isSome then
    ({ cur with process_name := extractProcessName line,
                timestamp := extractTimestamp line }, true)
  else if reading then
    let f := parsePerfStackFrame line
    (if !f.name.isEmpty then { cur with frames := cur.frames ++ [f] } else cur,
     reading)
  else (cur, reading)

/-- One iteration of the `PerfScriptParser::parse` loop: a blank trimmed
line closes the current stack (flushing it when one was open); any other
line goes through `parse_line`. -/
def perfStep (st : List StackSample × StackSample × Bool) (line : List Char) :
    List StackSample × StackSample × Bool :=
  let (samples, cur, reading) := st
  if line.isEmpty then
    if reading then
      let (samples', cur') := moveValidSample samples cur
      (samples', cur', false)
    else (samples, cur, false)
  else
    let (cur', reading') := perfParseLine line (cur, reading)
    (samples, cur', reading')

/-- Embeds `PerfScriptParser::parse`: fold `perfStep` over the scanner
lines, flush a stack still open at EOF, and fail with the parse error when
no valid sample was found. -/
def perfParse (buf : List Char) : Except String (List StackSample) :=
  let st := (scannerLines buf).foldl perfStep ([], { frames := [] }, false)
  let samples := if st.2.2 then (moveValidSample st.1 st.2.1).1 else st.1
  if samples.isEmpty then .error "No valid samples found in file"
  else .ok samples

/-! ## Folding (StackCollapser / ParallelStackCollapser) -/

/-- Embeds `FramesView::Equal` (and `std::vector<Frame>` equality in the
parallel collapser): same length and element-wise `Frame::operator==`. -/
def framesBEq : List Frame → List Frame → Bool
  | [], [] => true
  | a :: as', b :: bs' => frameBEq a b && framesBEq as' bs'
  | _, _ => false

/-- Insert one sample into the folded map (`collapsed[view] += count`,
with `operator[]` creating the entry at 0): the first entry whose key
equals the sample's frames gains the count, otherwise a new entry is
appended. -/
def addCollapse (m : List (List Frame × Nat)) (key : List Frame) (cnt : Nat) :
    List (List Frame × Nat) :=
  match m with
  | [] => [(key, cnt)]
  | (k, c) :: rest =>
    if framesBEq k key then (k, c + cnt) :: rest
    else (k, c) :: addCollapse rest key cnt

/-- Embeds `StackCollapser::collapse` (the `ParallelStackCollapser`
produces the same key-to-count mapping: insert stores the count, a hit
atomically adds it): fold every sample into the map keyed by its whole
frame sequence. -/
def collapseSamples (samples : List StackSample) : List (List Frame × Nat) :=
  samples.foldl (fun m s => addCollapse m s.frames s.count) []

/-- The count a folded map holds for a key (0 when absent).  Two folded
multisets are equal exactly when this agrees on every key. -/
def lookupCollapse (m : List (List Frame × Nat)) (key : List Frame) : Nat :=
  match m with
  | [] => 0
  | (k, c) :: rest => if framesBEq k key then c else lookupCollapse rest key

/-! ## ParallelLineScanner and ParallelPerfScriptParser.parse_block -/

/-- Offsets `i+1` for every newline at index `i` (the tail of the
`line_offsets` vector built by the `ParallelLineScanner` constructor). -/
def nlOffsets : List Char → Nat → List Nat
  | [], _ => []
  | c :: rest, i =>
    if c == '\n' then (i + 1) :: nlOffsets rest (i + 1)
    else nlOffsets rest (i + 1)

/-- Embeds the `ParallelLineScanner` constructor: offset 0, one offset
after each newline, and the buffer size appended when not already last. -/
def parLineOffsets (buf : List Char) : List Nat :=
  let base := 0 :: nlOffsets buf 0
  if base.getLast? != some buf.length then base ++ [buf.length] else base

/-- `ParallelLineScanner::line_count`. -/
def parLineCount (buf : List Char) : Nat :=
  (parLineOffsets buf).length - 1

/-- Embeds `ParallelLineScanner::get_line`: the trimmed view from
`offsets[i]` to `offsets[i+1] - 1` (which drops the final character of a
buffer that does not end in a newline). -/
def parGetLine (buf : List Char) (i : Nat) : List Char :=
  if i < parLineCount buf then
    let start := (parLineOffsets buf).getD i 0
    let stop := (parLineOffsets buf).getD (i + 1) 0 - 1
    trim (substr buf start (stop - start))
  else []

/-- Embeds `ParallelLineScanner::get_block_range`: `total / num_blocks`
lines per block, the last block absorbing the remainder. -/
def blockRange (buf : List Char) (blockIdx numBlocks : Nat) : Nat × Nat :=
  let total := parLineCount buf
  let lpb := total / numBlocks
  (blockIdx * lpb, if blockIdx == numBlocks - 1 then total else (blockIdx + 1) * lpb)

/-- Fuel-driven loop body of `seekStart` (the fuel is the number of lines
left in the block, so the recursion is structural). -/
def seekStartAux (buf : List Char) : Nat → Nat → Nat
  | 0, s => s
  | fuel + 1, s =>
    let line := parGetLine buf s
    if line.isEmpty || (findIdx (· == ':') line).isSome then s
    else seekStartAux buf fuel (s + 1)

/-- The boundary seek of `parse_block`: a non-first block advances its
start until it reaches a blank line or a `:`-bearing line, stopping at the
end of its range. -/
def seekStart (buf : List Char) (start stop : Nat) : Nat :=
  seekStartAux buf (stop - start) start

/-- Embeds `ParallelPerfScriptParser::parse_block` (using
`push_valid_sample`, the parallel variant of `move_valid_sample`): seek a
safe start when not the first block, run the perf line loop over the block's
line range, and flush an open stack at range end only in the last block. -/
def parseBlock (buf : List Char) (blockIdx numBlocks : Nat) : List StackSample :=
  let (start0, stop) := blockRange buf blockIdx numBlocks
  let start := if 0 < blockIdx then seekStart buf start0 stop else start0
  let idxs := (List.range (stop - start)).map (· + start)
  let st := (idxs.map (parGetLine buf)).foldl perfStep ([], { frames := [] }, false)
  if blockIdx == numBlocks - 1 && st.2.2 then (moveValidSample st.1 st.2.1).1
  else st.1

/-- The block-parallel parse with `numBlocks` workers: the per-block
results joined in block order (the orchestrator joins futures in order;
folding is order-insensitive anyway). -/
def parallelPerfSamples (buf : List Char) (numBlocks : Nat) : List StackSample :=
  ((List.range numBlocks).map (fun i => parseBlock buf i numBlocks)).flatten

/-! ## Output-extension dispatch (file_suffix, FlameGraphRendererFactory,
FlameGraphGenerator::generate) -/

/-- The renderers registered in `FlameGraphRendererFactory`. -/
inductive RendererKind where
  | svg
  | html
deriving DecidableEq, Repr

/-- Embeds `file_suffix`: the text after the last dot, empty when there is
no dot, the dot is last, or the last dot lies before the last path
separator (`/` or `\`). -/
def fileSuffix (path : List Char) : List Char :=
  match rfindIdx (· == '.') path path.length with
  | none => []
  | some lastDot =>
    if lastDot == path.length - 1 then []
    else
      match rfindIdx (fun c => c == '/' || c == '\\') path path.length with
      | some lastSlash => if lastDot < lastSlash then [] else path.drop (lastDot + 1)
      | none => path.drop (lastDot + 1)

/-- Embeds `FlameGraphRendererFactory::create`: `svg` and `html` map to
their renderers; any other tag falls back to the HTML renderer (the
source's "unknown defaults to html" branch). -/
def rendererCreate (filetype : List Char) : RendererKind :=
  if filetype == "svg".data then .svg
  else if filetype == "html".data then .html
  else .html

/-- Embeds the renderer selection at the top of
`FlameGraphGenerator::generate`: an output path with an empty suffix is
rejected with the "File suffix empty" error; otherwise the factory picks
the renderer and the pipeline goes on to write the output file. -/
def selectRenderer (outFile : List Char) : Except String RendererKind :=
  let suffix := fileSuffix outFile
  if suffix.isEmpty then .error "File suffix empty"
  else .ok (rendererCreate suffix)

/-! ## The flame tree (FlameNode)

A `FlameNode`'s child map is embedded as an ordered forest in
first-child / next-sibling form: `Forest.node f self total height children
sib`.  The map key always equals the child's own frame in the source
(`children[child_frame] = new_node` with `new_node->frame = child_frame`),
so the key is stored once.  Lookup uses `Frame::operator==`
(`FlameNode::FramePtrEqual` dereferences the pointers), and a new child is
appended; the invariant claims below are proved for every fold order, so
nothing depends on the hash map's iteration order. -/

inductive Forest : Type where
  | nil : Forest
  | node (f : Frame) (self total height : Nat) (children : Forest)
      (sib : Forest) : Forest
deriving DecidableEq, Repr

/-- The scalar fields plus child forest of a `FlameNode`; the synthetic
root is a `NodeData` with no frame (`frame = nullptr`, `self = 0`,
`total = 0`, `height = 1`, no children — the default `FlameNode`). -/
structure NodeData where
  self : Nat
  total : Nat
  height : Nat
  children : Forest
deriving DecidableEq, Repr

/-- The freshly constructed `FlameNode(child_frame)`: zero counts, height
1, no children. -/
def freshNode : NodeData := ⟨0, 0, 1, .nil⟩

/-- The `children.find(child_frame)` of `get_or_create_child`: first child
whose frame compares equal (`Frame::operator==`). -/
def findChild : Forest → Frame → Option NodeData
  | .nil, _ => none
  | .node g s t h c sib, f =>
    if frameBEq g f then some ⟨s, t, h, c⟩ else findChild sib f

/-- Write back a child's data: replace the first frame-equal child (its
stored frame, the original map key, is kept) or append a new child at the
end when no child matches. -/
def setChild : Forest → Frame → NodeData → Forest
  | .nil, f, nd => .node f nd.self nd.total nd.height nd.children .nil
  | .node g s t h c sib, f, nd =>
    if frameBEq g f then .node g nd.self nd.total nd.height nd.children sib
    else .node g s t h c (setChild sib f nd)

/-- Embeds one `(frames, count)` insertion of `FlameGraphBuilder::build_tree`:
walk/create children along the frame sequence (`get_or_create_child`),
then `increment_self_count(count)` at the leaf.  The net effect of the two
upward walks is written recursively: every node on the path gains `count`
on `total` (the leaf also on `self`), and each parent's height becomes
`max height (child_height + 1)` — exactly what `update_height_upward`
leaves behind, its early exit being the case where the `max` is a no-op. -/
def insertNode (d : NodeData) : List Frame → Nat → NodeData
  | [], count => { d with self := d.self + count, total := d.total + count }
  | f :: rest, count =>
    let cd := (findChild d.children f).getD freshNode
    let nd := insertNode cd rest count
    { self := d.self, total := d.total + count,
      height := max d.height (nd.height + 1),
      children := setChild d.children f nd }

/-- Embeds `FlameGraphBuilder::build_tree` without the optional pruning:
start from the default root and insert every non-empty folded stack. -/
def buildTree (folded : List (List Frame × Nat)) : NodeData :=
  folded.foldl
    (fun root kv => if kv.1.isEmpty then root else insertNode root kv.1 kv.2)
    ⟨0, 0, 1, .nil⟩

/-- Embeds `FlameGraphBuildOptions`.  `max_depth` is stored by the
generators but — exactly as in the source — never read by `build_tree`. -/
structure FlameGraphBuildOptions where
  max_depth : Int := 0
  min_total_count : Nat := 1
  prune_small_nodes : Bool := false
  prune_threshold : Rat := 1 / 100
deriving DecidableEq, Repr

/-- Embeds `FlameNode::prune_tree` over the children of a node whose
`total_count` is `pt` (the ratio `total / pt` is written `mkRat t pt`,
the same rational, because kernel evaluation cannot unfold `Rat.div`; the
double rounding of the source's ratio is not modelled): a child with
`total / pt < threshold` is erased
with its whole subtree; a surviving child is recursed into (skipping its
children when its own total is 0, the early-out at the top of
`prune_tree`). -/
def pruneForest (pt : Nat) (thr : Rat) : Forest → Forest
  | .nil => .nil
  | .node g s t h c sib =>
    if mkRat t pt < thr then pruneForest pt thr sib
    else .node g s t h (if t == 0 then c else pruneForest t thr c)
      (pruneForest pt thr sib)

/-- `root->prune_tree(threshold)`: the early-out for a zero-total root,
then pruning of the child forest.  Totals are not re-adjusted. -/
def pruneRoot (d : NodeData) (thr : Rat) : NodeData :=
  if d.total == 0 then d else { d with children := pruneForest d.total thr d.children }

/-- Embeds `build_tree` including its option handling: build, then prune
only when `prune_small_nodes` is set and the root has samples.
`options.max_depth` is ignored, faithfully to the source. -/
def buildTreeOpts (folded : List (List Frame × Nat))
    (options : FlameGraphBuildOptions) : NodeData :=
  let root := buildTree folded
  if options.prune_small_nodes && decide (0 < root.total) then
    pruneRoot root options.prune_threshold
  else root

/-! ## Tree measures and invariants -/

/-- Sum of the `total_count` fields of the nodes of a sibling list. -/
def sumTotals : Forest → Nat
  | .nil => 0
  | .node _ _ t _ _ sib => t + sumTotals sib

/-- Maximum `height` field over a sibling list (0 when empty). -/
def maxHeights : Forest → Nat
  | .nil => 0
  | .node _ _ _ h _ sib => max h (maxHeights sib)

/-- Number of nodes in a forest. -/
def forestSize : Forest → Nat
  | .nil => 0
  | .node _ _ _ _ c sib => 1 + forestSize c + forestSize sib

/-- Length of the longest root-to-leaf path of a forest, counted in
nodes. -/
def forestDepth : Forest → Nat
  | .nil => 0
  | .node _ _ _ _ c sib => max (1 + forestDepth c) (forestDepth sib)

/-- The spec's invariant 1 checked over a forest:
`total == self + Σ children.total` at every node. -/
def totalInvF : Forest → Bool
  | .nil => true
  | .node _ s t _ c sib =>
    t == s + sumTotals c && totalInvF c && totalInvF sib

/-- Invariant 1 for a whole tree, root included. -/
def totalInvD (d : NodeData) : Bool :=
  d.total == d.self + sumTotals d.children && totalInvF d.children

/-- The spec's invariant 2 checked over a forest:
`height == 1 + max(0, max children.height)` at every node. -/
def heightInvF : Forest → Bool
  | .nil => true
  | .node _ _ _ h c sib =>
    h == 1 + maxHeights c && heightInvF c && heightInvF sib

/-- Invariant 2 for a whole tree, root included. -/
def heightInvD (d : NodeData) : Bool :=
  d.height == 1 + maxHeights d.children && heightInvF d.children

/-! ## get_or_create_child as a standalone operation -/

/-- `children.find(child_frame)` keeping the stored key: the returned
pair is the map key (the first-inserted equal frame) and the child's data
— together they identify the child node the source returns by pointer. -/
def gocFind : Forest → Frame → Option (Frame × NodeData)
  | .nil, _ => none
  | .node g s t h c sib, f =>
    if frameBEq g f then some (g, ⟨s, t, h, c⟩) else gocFind sib f

/-- Embeds `FlameNode::get_or_create_child` on one node: an existing
frame-equal child is returned and nothing changes; otherwise a fresh leaf
is linked in and `update_height_upward` raises this node's height to
`max height 2` (the walk continues into ancestors, which a second
equal-frame call — the subject of the idempotence claim — never reaches). -/
def getOrCreateChild (d : NodeData) (f : Frame) : NodeData × (Frame × NodeData) :=
  match gocFind d.children f with
  | some fc => (d, fc)
  | none =>
    ({ d with children := setChild d.children f freshNode,
              height := max d.height (freshNode.height + 1) }, (f, freshNode))

/-! ## Configuration and SVG child layout -/

/-- Embeds `FlameGraphConfig` (the fields the core pipeline and the
layout math consume; `double` fields are exact rationals). -/
structure FlameGraphConfig where
  title : List Char := "Flame Graph".data
  subtitle : List Char := "subtitle".data
  width : Int := 1200
  height : Int := 0
  frame_height : Int := 16
  xpad : Int := 10
  font_size : Int := 12
  font_width : Rat := mkRat 3 5
  min_width : Rat := mkRat 1 10
  max_depth : Int := 0
  min_heat_threshold : Rat := 0
  reverse : Bool := false
  inverted : Bool := false
  interactive : Bool := true
  write_folded_file : Bool := false
deriving DecidableEq, Repr

/-- Embeds `FlameGraphConfig::validate`: `true` exactly when no check
throws (positive width, font size and frame height, non-negative
min_width and xpad, font_width in (0, 1]). -/
def FlameGraphConfig.validate (c : FlameGraphConfig) : Bool :=
  decide (0 < c.width) && decide (0 < c.font_size) &&
    decide (0 ≤ c.min_width) &&
    (decide (0 < c.font_width) && decide (c.font_width ≤ 1)) &&
    decide (0 ≤ c.xpad) && decide (0 < c.frame_height)

/-- The renderer's `width_per_sample = (width - 2*xpad) / total_samples`,
as the exact rational (written with `mkRat` so it evaluates; `mkRat a b`
is the rational `a / b`). -/
def widthPerSample (c : FlameGraphConfig) (totalSamples : Nat) : Rat :=
  mkRat (c.width - 2 * c.xpad) totalSamples

/-- The renderer's `child_width = child->total_count * width_per_sample`,
again via `mkRat` so it evaluates (see `childWidth_eq`). -/
def childWidth (wps : Rat) (t : Nat) : Rat :=
  mkRat (t * wps.num) wps.den

/-- `childWidth` is the ordinary product `total * width_per_sample`. -/
theorem childWidth_eq (wps : Rat) (t : Nat) :
    childWidth wps t = (t : Rat) * wps := by
  rw [childWidth, Rat.mkRat_eq_div]
  push_cast
  rw [mul_div_assoc, Rat.num_div_den]

/-- One emitted `<g>` record of `render_frame`: the child's frame, its x
coordinate, its pixel width and its depth (the y coordinate is the only
thing `render_children_flamegraph` and `render_children_icicle` compute
differently, and no claim mentions it, so it is not carried). -/
structure FrameRect where
  frame : Frame
  x : Rat
  width : Rat
  depth : Nat
deriving DecidableEq, Repr

/-- Embeds the shared child-walk of `render_children_flamegraph` and
`render_children_icicle`: each child takes `child_width` of the x axis
whether or not it is drawn; it is drawn — with its subtree, one depth
deeper — exactly when `child_width >= min_width`. -/
def renderChildren (frst : Forest) (x : Rat) (depth : Nat) (minw wps : Rat) :
    List FrameRect :=
  match frst with
  | .nil => []
  | .node g _ t _ c sib =>
    let w := childWidth wps t
    (if minw ≤ w then
      ⟨g, x, w, depth⟩ :: renderChildren c x (depth + 1) minw wps
     else []) ++
    renderChildren sib (x + w) depth minw wps

/-- The layout positions with no `min_width` filtering: every top-level
child of the forest with the x coordinate it owns on the axis. -/
def slotRects (frst : Forest) (x : Rat) (depth : Nat) (wps : Rat) :
    List FrameRect :=
  match frst with
  | .nil => []
  | .node g _ t _ _ sib =>
    let w := childWidth wps t
    ⟨g, x, w, depth⟩ :: slotRects sib (x + w) depth wps

/-- Embeds the child layout started by `render_frames_flamegraph`: the
root's own frame is written unconditionally, then the children are walked
from `x = xpad` at depth 1 with the configured `min_width` and the
computed `width_per_sample`. -/
def renderFrames (root : NodeData) (c : FlameGraphConfig) : List FrameRect :=
  renderChildren root.children (mkRat c.xpad 1) 1 c.min_width
    (widthPerSample c root.total)

/-! ## XML escaping (escape_xml_to_stream) -/

/-- The apostrophe character (written by code point to keep character
literals simple). -/
def aposChar : Char := Char.ofNat 39

/-- Embeds one `switch` case of `escape_xml_to_stream`: the five XML
special characters become the entities `&amp; &lt; &gt; &quot; &apos;`
(spelled as character lists), everything else passes through. -/
def escapeXmlChar (c : Char) : List Char :=
  if c == '&' then ['&', 'a', 'm', 'p', ';']
  else if c == '<' then ['&', 'l', 't', ';']
  else if c == '>' then ['&', 'g', 't', ';']
  else if c == '"' then ['&', 'q', 'u', 'o', 't', ';']
  else if c == aposChar then ['&', 'a', 'p', 'o', 's', ';']
  else [c]

/-- Embeds `escape_xml_to_stream`: escape every character of the view in
order. -/
def escapeXmlToStream (s : List Char) : List Char :=
  (s.map escapeXmlChar).flatten

/-- The inverse direction of the spec's round-trip law: replace each of
the five entities produced by `escape_xml_to_stream` by its character; a
lone `&` that opens no known entity passes through. -/
def unescapeXml (l : List Char) : List Char :=
  match l with
  | [] => []
  | c :: rest =>
    if c == '&' then
      if ['a', 'm', 'p', ';'].isPrefixOf rest then '&' :: unescapeXml (rest.drop 4)
      else if ['l', 't', ';'].isPrefixOf rest then '<' :: unescapeXml (rest.drop 3)
      else if ['g', 't', ';'].isPrefixOf rest then '>' :: unescapeXml (rest.drop 3)
      else if ['q', 'u', 'o', 't', ';'].isPrefixOf rest then
        '"' :: unescapeXml (rest.drop 5)
      else if ['a', 'p', 'o', 's', ';'].isPrefixOf rest then
        aposChar :: unescapeXml (rest.drop 5)
      else c :: unescapeXml rest
    else c :: unescapeXml rest
termination_by l.length
decreasing_by all_goals (simp [List.length_drop]; try omega)

/-! ## Lemmas: insertion preserves the count and height invariants -/

theorem insertNode_total (d : NodeData) (fs : List Frame) (count : Nat) :
    (insertNode d fs count).total = d.total + count := by
  cases fs <;> simp [insertNode]

theorem insertNode_height_ge (d : NodeData) (fs : List Frame) (count : Nat) :
    d.height ≤ (insertNode d fs count).height := by
  cases fs <;> simp [insertNode]

theorem sumTotals_setChild_none (frst : Forest) (f : Frame) (nd : NodeData)
    (h : findChild frst f = none) :
    sumTotals (setChild frst f nd) = sumTotals frst + nd.total := by
  induction frst with
  | nil => simp [setChild, sumTotals]
  | node g s t ht c sib ihc ihs =>
    rw [findChild] at h
    by_cases hg : frameBEq g f = true
    · rw [if_pos hg] at h; simp at h
    · rw [if_neg hg] at h
      rw [setChild, if_neg hg, sumTotals, sumTotals, ihs h]
      omega

theorem sumTotals_setChild_some (frst : Forest) (f : Frame) (cd nd : NodeData)
    (h : findChild frst f = some cd) :
    sumTotals (setChild frst f nd) + cd.total = sumTotals frst + nd.total := by
  induction frst with
  | nil => simp [findChild] at h
  | node g s t ht c sib ihc ihs =>
    rw [findChild] at h
    by_cases hg : frameBEq g f = true
    · rw [if_pos hg] at h
      cases h
      rw [setChild, if_pos hg, sumTotals, sumTotals]
      dsimp only
      omega
    · rw [if_neg hg] at h
      rw [setChild, if_neg hg, sumTotals, sumTotals]
      have := ihs h
      omega

theorem totalInvF_findChild (frst : Forest) (f : Frame) (cd : NodeData)
    (hf : totalInvF frst = true) (h : findChild frst f = some cd) :
    totalInvD cd = true := by
  induction frst with
  | nil => simp [findChild] at h
  | node g s t ht c sib ihc ihs =>
    rw [totalInvF, Bool.and_assoc, Bool.and_eq_true, Bool.and_eq_true] at hf
    rw [findChild] at h
    by_cases hg : frameBEq g f = true
    · rw [if_pos hg] at h
      cases h
      rw [totalInvD]
      simp only [Bool.and_eq_true]
      exact ⟨hf.1, hf.2.1⟩
    · rw [if_neg hg] at h
      exact ihs hf.2.2 h

theorem totalInvF_setChild (frst : Forest) (f : Frame) (nd : NodeData)
    (hf : totalInvF frst = true) (hd : totalInvD nd = true) :
    totalInvF (setChild frst f nd) = true := by
  rw [totalInvD, Bool.and_eq_true] at hd
  induction frst with
  | nil =>
    rw [setChild, totalInvF]
    simp [hd.1, hd.2, totalInvF]
  | node g s t ht c sib ihc ihs =>
    rw [totalInvF, Bool.and_assoc, Bool.and_eq_true, Bool.and_eq_true] at hf
    by_cases hg : frameBEq g f = true
    · rw [setChild, if_pos hg, totalInvF]
      simp [hd.1, hd.2, hf.2.2]
    · rw [setChild, if_neg hg, totalInvF]
      simp [hf.1, hf.2.1, ihs hf.2.2]

theorem freshNode_totalInv : totalInvD freshNode = true := by decide

theorem insertNode_totalInv (fs : List Frame) :
    ∀ (d : NodeData) (count : Nat), totalInvD d = true →
      totalInvD (insertNode d fs count) = true := by
  induction fs with
  | nil =>
    intro d count hd
    rw [totalInvD, Bool.and_eq_true, beq_iff_eq] at hd ⊢
    rw [insertNode]
    dsimp only
    exact ⟨by omega, hd.2⟩
  | cons f rest ih =>
    intro d count hd
    rw [totalInvD, Bool.and_eq_true, beq_iff_eq] at hd
    have hfc := hd.2
    rw [totalInvD, Bool.and_eq_true, beq_iff_eq]
    rw [insertNode]
    cases hfind : findChild d.children f with
    | none =>
      have hnd := ih freshNode count freshNode_totalInv
      dsimp only [hfind, Option.getD_none]
      constructor
      · rw [sumTotals_setChild_none _ _ _ hfind, insertNode_total]
        have h1 := hd.1
        simp only [freshNode]
        omega
      · exact totalInvF_setChild _ _ _ hfc hnd
    | some cd =>
      have hcd := totalInvF_findChild _ _ _ hfc hfind
      have hnd := ih cd count hcd
      dsimp only [hfind, Option.getD_some]
      constructor
      · have hs := sumTotals_setChild_some d.children f cd (insertNode cd rest count) hfind
        have ht := insertNode_total cd rest count
        have h1 := hd.1
        omega
      · exact totalInvF_setChild _ _ _ hfc hnd

theorem buildTree_totalInv (folded : List (List Frame × Nat)) :
    totalInvD (buildTree folded) = true := by
  rw [buildTree]
  have h0 : totalInvD (⟨0, 0, 1, .nil⟩ : NodeData) = true := by decide
  generalize (⟨0, 0, 1, .nil⟩ : NodeData) = d at h0 ⊢
  induction folded generalizing d with
  | nil => exact h0
  | cons kv rest ih =>
    rw [List.foldl_cons]
    by_cases hk : kv.1.isEmpty
    · rw [if_pos hk]; exact ih d h0
    · rw [if_neg hk]; exact ih _ (insertNode_totalInv _ _ _ h0)

theorem maxHeights_setChild_none (frst : Forest) (f : Frame) (nd : NodeData)
    (h : findChild frst f = none) :
    maxHeights (setChild frst f nd) = max (maxHeights frst) nd.height := by
  induction frst with
  | nil => simp [setChild, maxHeights]
  | node g s t ht c sib ihc ihs =>
    rw [findChild] at h
    by_cases hg : frameBEq g f = true
    · rw [if_pos hg] at h; simp at h
    · rw [if_neg hg] at h
      rw [setChild, if_neg hg, maxHeights, maxHeights, ihs h]
      omega

theorem maxHeights_setChild_some (frst : Forest) (f : Frame) (cd nd : NodeData)
    (h : findChild frst f = some cd) (hge : cd.height ≤ nd.height) :
    maxHeights (setChild frst f nd) = max (maxHeights frst) nd.height := by
  induction frst with
  | nil => simp [findChild] at h
  | node g s t ht c sib ihc ihs =>
    rw [findChild] at h
    by_cases hg : frameBEq g f = true
    · rw [if_pos hg] at h
      cases h
      rw [setChild, if_pos hg, maxHeights, maxHeights]
      dsimp only at hge ⊢
      omega
    · rw [if_neg hg] at h
      rw [setChild, if_neg hg, maxHeights, maxHeights, ihs h]
      omega

theorem heightInvF_findChild (frst : Forest) (f : Frame) (cd : NodeData)
    (hf : heightInvF frst = true) (h : findChild frst f = some cd) :
    heightInvD cd = true := by
  induction frst with
  | nil => simp [findChild] at h
  | node g s t ht c sib ihc ihs =>
    rw [heightInvF, Bool.and_assoc, Bool.and_eq_true, Bool.and_eq_true] at hf
    rw [findChild] at h
    by_cases hg : frameBEq g f = true
    · rw [if_pos hg] at h
      cases h
      rw [heightInvD]
      simp only [Bool.and_eq_true]
      exact ⟨hf.1, hf.2.1⟩
    · rw [if_neg hg] at h
      exact ihs hf.2.2 h

theorem heightInvF_setChild (frst : Forest) (f : Frame) (nd : NodeData)
    (hf : heightInvF frst = true) (hd : heightInvD nd = true) :
    heightInvF (setChild frst f nd) = true := by
  rw [heightInvD, Bool.and_eq_true] at hd
  induction frst with
  | nil =>
    rw [setChild, heightInvF]
    simp [hd.1, hd.2, heightInvF]
  | node g s t ht c sib ihc ihs =>
    rw [heightInvF, Bool.and_assoc, Bool.and_eq_true, Bool.and_eq_true] at hf
    by_cases hg : frameBEq g f = true
    · rw [setChild, if_pos hg, heightInvF]
      simp [hd.1, hd.2, hf.2.2]
    · rw [setChild, if_neg hg, heightInvF]
      simp [hf.1, hf.2.1, ihs hf.2.2]

theorem freshNode_heightInv : heightInvD freshNode = true := by decide

theorem insertNode_heightInv (fs : List Frame) :
    ∀ (d : NodeData) (count : Nat), heightInvD d = true →
      heightInvD (insertNode d fs count) = true := by
  induction fs with
  | nil =>
    intro d count hd
    rw [heightInvD] at hd ⊢
    rw [insertNode]
    exact hd
  | cons f rest ih =>
    intro d count hd
    rw [heightInvD, Bool.and_eq_true, beq_iff_eq] at hd
    have hfc := hd.2
    rw [heightInvD, Bool.and_eq_true, beq_iff_eq]
    rw [insertNode]
    cases hfind : findChild d.children f with
    | none =>
      have hnd := ih freshNode count freshNode_heightInv
      dsimp only [hfind, Option.getD_none]
      constructor
      · rw [maxHeights_setChild_none _ _ _ hfind]
        have h1 := hd.1
        have h2 := insertNode_height_ge freshNode rest count
        simp only [freshNode] at h2
        omega
      · exact heightInvF_setChild _ _ _ hfc hnd
    | some cd =>
      have hcd := heightInvF_findChild _ _ _ hfc hfind
      have hnd := ih cd count hcd
      have hge := insertNode_height_ge cd rest count
      dsimp only [hfind, Option.getD_some]
      constructor
      · rw [maxHeights_setChild_some _ _ _ _ hfind hge]
        have h1 := hd.1
        omega
      · exact heightInvF_setChild _ _ _ hfc hnd

theorem buildTree_heightInv (folded : List (List Frame × Nat)) :
    heightInvD (buildTree folded) = true := by
  rw [buildTree]
  have h0 : heightInvD (⟨0, 0, 1, .nil⟩ : NodeData) = true := by decide
  generalize (⟨0, 0, 1, .nil⟩ : NodeData) = d at h0 ⊢
  induction folded generalizing d with
  | nil => exact h0
  | cons kv rest ih =>
    rw [List.foldl_cons]
    by_cases hk : kv.1.isEmpty
    · rw [if_pos hk]; exact ih d h0
    · rw [if_neg hk]; exact ih _ (insertNode_heightInv _ _ _ h0)

/-- A threshold of 0 prunes nothing: every ratio `total / parent_total`
is non-negative. -/
theorem pruneForest_zero (frst : Forest) : ∀ pt, pruneForest pt 0 frst = frst := by
  induction frst with
  | nil => intro pt; rfl
  | node g s t ht c sib ihc ihs =>
    intro pt
    rw [pruneForest]
    rw [if_neg (by simp [Rat.mkRat_eq_div]; positivity)]
    rw [ihs pt]
    by_cases h0 : t == 0
    · simp [h0]
    · simp [h0, ihc t]

theorem pruneRoot_zero (d : NodeData) : pruneRoot d 0 = d := by
  rw [pruneRoot]
  by_cases h0 : d.total == 0
  · rw [if_pos h0]
  · rw [if_neg h0, pruneForest_zero]

/-! ## Lemmas: XML escape round trip -/

theorem unescape_cons_of_ne (c : Char) (l : List Char) (h : ¬c = '&') :
    unescapeXml (c :: l) = c :: unescapeXml l := by
  rw [unescapeXml.eq_def]
  simp [h]

theorem unescape_escapeXmlChar (c : Char) (l : List Char) :
    unescapeXml (escapeXmlChar c ++ l) = c :: unescapeXml l := by
  by_cases h1 : c = '&'
  · subst h1
    rw [show escapeXmlChar '&' = ['&', 'a', 'm', 'p', ';'] from by decide]
    rw [List.cons_append, unescapeXml.eq_def]
    simp [List.isPrefixOf]
  · by_cases h2 : c = '<'
    · subst h2
      rw [show escapeXmlChar '<' = ['&', 'l', 't', ';'] from by decide]
      rw [List.cons_append, unescapeXml.eq_def]
      simp [List.isPrefixOf]
    · by_cases h3 : c = '>'
      · subst h3
        rw [show escapeXmlChar '>' = ['&', 'g', 't', ';'] from by decide]
        rw [List.cons_append, unescapeXml.eq_def]
        simp [List.isPrefixOf]
      · by_cases h4 : c = '"'
        · subst h4
          rw [show escapeXmlChar '"' = ['&', 'q', 'u', 'o', 't', ';'] from by decide]
          rw [List.cons_append, unescapeXml.eq_def]
          simp [List.isPrefixOf]
        · by_cases h5 : c = aposChar
          · subst h5
            rw [show escapeXmlChar aposChar = ['&', 'a', 'p', 'o', 's', ';'] from by
              decide]
            rw [List.cons_append, unescapeXml.eq_def]
            simp [List.isPrefixOf]
          · rw [escapeXmlChar, if_neg (by simp [h1]), if_neg (by simp [h2]),
              if_neg (by simp [h3]), if_neg (by simp [h4]), if_neg (by simp [h5])]
            rw [List.cons_append, List.nil_append]
            exact unescape_cons_of_ne c l h1

theorem unescape_escape (s : List Char) :
    unescapeXml (escapeXmlToStream s) = s := by
  induction s with
  | nil => rw [escapeXmlToStream]; simp [unescapeXml.eq_def]
  | cons c rest ih =>
    rw [escapeXmlToStream, List.map_cons, List.flatten_cons]
    rw [show (List.map escapeXmlChar rest).flatten = escapeXmlToStream rest from rfl]
    rw [unescape_escapeXmlChar, ih]

/-! ## Lemmas: SVG child layout -/

theorem childWidth_nonneg (wps : Rat) (t : Nat) (h : 0 ≤ wps) :
    0 ≤ childWidth wps t := by
  rw [childWidth_eq]
  exact mul_nonneg (by positivity) h

theorem renderChildren_width_ge (frst : Forest) :
    ∀ x d minw wps e, e ∈ renderChildren frst x d minw wps → minw ≤ e.width := by
  induction frst with
  | nil => intro x d minw wps e he; simp [renderChildren] at he
  | node g s t ht c sib ihc ihs =>
    intro x d minw wps e he
    rw [renderChildren] at he
    rcases List.mem_append.mp he with h1 | h2
    · by_cases hw : minw ≤ childWidth wps t
      · rw [if_pos hw] at h1
        rcases List.mem_cons.mp h1 with rfl | hc
        · exact hw
        · exact ihc _ _ _ _ _ hc
      · rw [if_neg hw] at h1
        simp at h1
    · exact ihs _ _ _ _ _ h2

theorem renderChildren_depth_ge (frst : Forest) :
    ∀ x d minw wps e, e ∈ renderChildren frst x d minw wps → d ≤ e.depth := by
  induction frst with
  | nil => intro x d minw wps e he; simp [renderChildren] at he
  | node g s t ht c sib ihc ihs =>
    intro x d minw wps e he
    rw [renderChildren] at he
    rcases List.mem_append.mp he with h1 | h2
    · by_cases hw : minw ≤ childWidth wps t
      · rw [if_pos hw] at h1
        rcases List.mem_cons.mp h1 with rfl | hc
        · exact le_refl d
        · exact Nat.le_of_succ_le (ihc _ _ _ _ _ hc)
      · rw [if_neg hw] at h1
        simp at h1
    · exact ihs _ _ _ _ _ h2

theorem renderChildren_filter_depth (frst : Forest) :
    ∀ x d minw wps,
      (renderChildren frst x d minw wps).filter (fun e => e.depth == d) =
        (slotRects frst x d wps).filter (fun e => decide (minw ≤ e.width)) := by
  induction frst with
  | nil => intro x d minw wps; rfl
  | node g s t ht c sib ihc ihs =>
    intro x d minw wps
    rw [renderChildren, slotRects]
    have hchild : (renderChildren c x (d + 1) minw wps).filter
        (fun e => e.depth == d) = [] := by
      rw [List.filter_eq_nil_iff]
      intro e he
      have := renderChildren_depth_ge c _ _ _ _ _ he
      simp only [beq_iff_eq]
      omega
    by_cases hw : minw ≤ childWidth wps t
    · rw [if_pos hw, List.cons_append, List.filter_cons, List.filter_cons]
      rw [if_pos (by simp), if_pos (by simp [hw])]
      rw [List.filter_append, hchild, List.nil_append, ihs]
    · rw [if_neg hw, List.nil_append, List.filter_cons]
      rw [if_neg (by simp [hw])]
      exact ihs _ _ _ _

theorem renderChildren_minw_zero_length (frst : Forest) :
    ∀ x d wps, 0 ≤ wps →
      (renderChildren frst x d 0 wps).length = forestSize frst := by
  induction frst with
  | nil => intro x d wps _; rfl
  | node g s t ht c sib ihc ihs =>
    intro x d wps hwps
    rw [renderChildren, forestSize]
    rw [if_pos (childWidth_nonneg wps t hwps)]
    rw [List.cons_append, List.length_cons, List.length_append]
    rw [ihc _ _ _ hwps, ihs _ _ _ hwps]
    omega

/-! ## Lemmas: get_or_create_child idempotence -/

theorem frameBEq_iff (a b : Frame) :
    frameBEq a b = true ↔
      a.is_func = b.is_func ∧ a.lib_include_brackets = b.lib_include_brackets ∧
        a.name = b.name := by
  simp [frameBEq, Bool.and_eq_true, and_assoc]

theorem frameBEq_congr_left (f1 f2 g : Frame) (h : frameBEq f1 f2 = true) :
    frameBEq g f1 = frameBEq g f2 := by
  rw [frameBEq_iff] at h
  rw [Bool.eq_iff_iff, frameBEq_iff, frameBEq_iff, h.1, h.2.1, h.2.2]

theorem gocFind_congr (frst : Forest) (f1 f2 : Frame)
    (h : frameBEq f1 f2 = true) : gocFind frst f1 = gocFind frst f2 := by
  induction frst with
  | nil => rfl
  | node g s t ht c sib ihc ihs =>
    rw [gocFind, gocFind, frameBEq_congr_left f1 f2 g h, ihs]

theorem gocFind_setChild_fresh (frst : Forest) (f1 f2 : Frame)
    (nd : NodeData) (hnone : gocFind frst f1 = none)
    (h : frameBEq f1 f2 = true) :
    gocFind (setChild frst f1 nd) f2 = some (f1, nd) := by
  induction frst with
  | nil =>
    rw [setChild, gocFind]
    rw [if_pos h]
  | node g s t ht c sib ihc ihs =>
    rw [gocFind] at hnone
    by_cases hg : frameBEq g f1 = true
    · rw [if_pos hg] at hnone
      simp at hnone
    · rw [if_neg hg] at hnone
      rw [setChild, if_neg hg, gocFind]
      rw [if_neg (by rw [← frameBEq_congr_left f1 f2 g h]; exact hg)]
      exact ihs hnone

/-! ## Properties of the specification checked against the code

Each property from the specification is settled by one theorem below;
where the code disagrees with the specification, a closed evaluation at a
concrete input exhibits the disagreement, and the nearest true statement
is proved alongside. -/

/-- C1: the generic dialect does NOT gather a run of consecutive
non-blank lines into one multi-frame sample.  `GenericTextParser::parse`
flushes the current sample after every line (the flush is not guarded by
the blank/comment test its own comment describes), so the three-line
input `main\nworker\ncompute` parses into three single-frame samples;
the folded map then has three keys and the tree has `root.total = 3` and
`root.height = 2`, not one key `[main,worker,compute]` with
`root.total = 1`. -/
theorem generic_parse_flushes_every_line :
    genericParse "main\nworker\ncompute".data =
      [{ frames := [Frame.ofName "main".data] },
       { frames := [Frame.ofName "worker".data] },
       { frames := [Frame.ofName "compute".data] }] ∧
    (collapseSamples (genericParse "main\nworker\ncompute".data)).length = 3 ∧
    (buildTree (collapseSamples (genericParse "main\nworker\ncompute".data))).total = 3 ∧
    (buildTree (collapseSamples (genericParse "main\nworker\ncompute".data))).height = 2 := by
  decide

/-- C2: the block-parallel perf pipeline is NOT equivalent to the
single-threaded one when a block boundary falls inside a sample.  On an
8-line input split into 2 blocks, the boundary lands between the frames
of the first sample: block 0 discards its partial sample (it is not the
last block) and block 1's boundary seek skips the remaining frame lines,
so the first sample vanishes.  The sequential parse keeps both samples;
the folded multisets differ at the first sample's key. -/
theorem parallel_block_boundary_drops_sample :
    (let input := ("p1 1.0: c:\naa f1 (l)\naa f2 (l)\naa f3 (l)\naa f4 (l)\n\n" ++
      "p2 2.0: c:\naa g1 (l)\n").data
     let key1 := ["f4", "f3", "f2", "f1"].map (fun n => Frame.ofName n.data)
     let s1 : StackSample :=
       { frames := ["f4", "f3", "f2", "f1"].map (fun n => Frame.ofName n.data),
         count := 1, process_name := "p1".data, timestamp := 1000000 }
     let s2 : StackSample :=
       { frames := [Frame.ofName "g1".data], count := 1,
         process_name := "p2".data, timestamp := 2000000 }
     perfParse input = .ok [s1, s2] ∧
     parallelPerfSamples input 2 = [s2] ∧
     lookupCollapse (collapseSamples [s1, s2]) key1 = 1 ∧
     lookupCollapse (collapseSamples (parallelPerfSamples input 2)) key1 = 0) := by
  decide

/-- C3 counterexample: the output path `out.txt`, whose extension is
neither `svg` nor `html`, is NOT rejected — the factory falls back to the
HTML renderer and the pipeline proceeds to write output. -/
theorem unknown_suffix_accepted_as_html :
    selectRenderer "out.txt".data = .ok .html := by decide

/-- C3 (amended): only an output path whose `file_suffix` is empty (no
extension at all) is rejected; a non-empty extension always selects a
renderer — `svg` the SVG one, and every other extension (including `txt`
and `html`) the HTML one, via the factory's unknown-tag fallback. -/
theorem renderer_selection_by_suffix (p : List Char) :
    (fileSuffix p = [] → selectRenderer p = .error "File suffix empty") ∧
    (fileSuffix p ≠ [] → selectRenderer p = .ok (rendererCreate (fileSuffix p))) ∧
    (∀ sfx : List Char, sfx ≠ "svg".data → rendererCreate sfx = .html) ∧
    rendererCreate "svg".data = .svg := by
  refine ⟨?_, ?_, ?_, by decide⟩
  · intro h
    simp only [selectRenderer, h]
    rfl
  · intro h
    simp only [selectRenderer]
    rw [if_neg (by simp [List.isEmpty_iff, h])]
  · intro sfx h2
    have hs : (sfx == "svg".data) = false := by
      simp [beq_eq_false_iff_ne, h2]
    simp [rendererCreate, hs]

/-- C3 witness: the amended rule evaluated at `out.txt` (suffix `txt`,
accepted, HTML fallback). -/
theorem renderer_selection_by_suffix_witness :
    selectRenderer "out.txt".data =
      .ok (rendererCreate (fileSuffix "out.txt".data)) ∧
    rendererCreate "txt".data = .html :=
  ⟨(renderer_selection_by_suffix "out.txt".data).2.1 (by decide),
   (renderer_selection_by_suffix "out.txt".data).2.2.1 "txt".data (by decide)⟩

/-- C4: `build_tree` never reads `options.max_depth`, so `max_depth = 1`
does NOT bound tree paths: the single folded stack `[a, b]` builds the
same two-frame path under `max_depth = 1` as under `max_depth = 0`, and
that path has 2 > 1 non-root nodes. -/
theorem build_tree_ignores_max_depth :
    (let folded := [([Frame.ofName "a".data, Frame.ofName "b".data], 1)]
     buildTreeOpts folded { max_depth := 1 } = buildTreeOpts folded { max_depth := 0 } ∧
     forestDepth (buildTreeOpts folded { max_depth := 1 }).children = 2) := by
  decide

/-- C5 counterexample: pruning does not re-adjust totals, so the
invariant `total = self + Σ children.total` fails after a prune that
removes a child: from the folded multiset `{[a] → 1, [b] → 9}` the root
has total 10; pruning at threshold 1/2 removes `a` (ratio 1/10) and
leaves the root with children summing to 9. -/
theorem prune_breaks_total_invariant :
    totalInvD (buildTree [([Frame.ofName "a".data], 1),
      ([Frame.ofName "b".data], 9)]) = true ∧
    totalInvD (pruneRoot (buildTree [([Frame.ofName "a".data], 1),
      ([Frame.ofName "b".data], 9)]) (mkRat 1 2)) = false := by
  decide

/-- C5 (amended): after tree construction from any folded multiset every
node n satisfies `n.total = n.self + Σ c ∈ children(n), c.total`, and
pruning with threshold 0 removes nothing (so preserves the invariant);
pruning with a positive threshold that removes a child does not re-adjust
the parent's total and breaks the invariant there (see the
counterexample). -/
theorem total_invariant_after_build :
    (∀ folded : List (List Frame × Nat), totalInvD (buildTree folded) = true) ∧
    ∀ d : NodeData, pruneRoot d 0 = d :=
  ⟨buildTree_totalInv, pruneRoot_zero⟩

/-- C6: after building the tree from any folded multiset (pruning
disabled) the incremental upward height updates leave every node — the
root included — with `height = 1 + max(0, max c ∈ children, c.height)`;
in particular leaves have height 1, with no second pass. -/
theorem height_invariant_after_build :
    ∀ folded : List (List Frame × Nat), heightInvD (buildTree folded) = true :=
  buildTree_heightInv

/-- C7: the minimal perf-script input parses into exactly one sample with
process `prog`, timestamp 1000000 µs and root-to-leaf frames
`[main, foo]`, both function frames with offsets stripped and libraries
discarded. -/
theorem perf_minimal_scenario :
    perfParse ("prog 123 1.000000: 250000 cpu-clock:\n" ++
      "    deadbeef foo+0x10 (/usr/bin/prog)\n" ++
      "    cafebabe main+0x20 (/usr/bin/prog)\n\n").data =
    .ok [{ frames := [Frame.ofName "main".data, Frame.ofName "foo".data],
           count := 1, process_name := "prog".data, timestamp := 1000000 }] := by
  decide

/-- C8: un-escaping the XML-escaped form of any string yields the string
exactly; since the emitted tooltip is `escape_xml_to_stream` applied to a
text whose prefix is the frame name, un-escaping an emitted tooltip
recovers the frame name verbatim. -/
theorem xml_escape_round_trip :
    ∀ s : List Char, unescapeXml (escapeXmlToStream s) = s :=
  unescape_escape

/-- C9 counterexample: with `min_width = 0` a non-pruned node can still
be omitted, because a validated configuration may have `2·xpad > width`,
making `width_per_sample` (and hence every child's pixel width)
negative: with `width = 1`, `xpad = 10` the one-node tree built from
`{[a] → 1}` renders no child group at all. -/
theorem min_width_zero_child_omitted :
    (let cfg : FlameGraphConfig := { width := 1, xpad := 10, min_width := mkRat 0 1 }
     cfg.validate = true ∧
     renderFrames (buildTree [([Frame.ofName "a".data], 1)]) cfg = [] ∧
     forestSize (buildTree [([Frame.ofName "a".data], 1)]).children = 1) := by
  decide

/-- C9 (amended): in the SVG child walk a child (with its whole subtree)
is emitted exactly when its pixel width `total * width_per_sample` is at
least `min_width` — so omitted exactly when strictly below it — and an
omitted child's slot width still advances the running x coordinate, so
the frames at any depth are the unfiltered slot layout filtered by the
width test alone; with `min_width = 0` every node is emitted provided
`width_per_sample ≥ 0` (i.e. `2·xpad ≤ width`; the counterexample shows
the negative-width case is real). -/
theorem svg_child_omission_rule (frst : Forest) (x : Rat) (d : Nat)
    (minw wps : Rat) :
    (∀ e ∈ renderChildren frst x d minw wps, minw ≤ e.width) ∧
    ((renderChildren frst x d minw wps).filter (fun e => e.depth == d) =
      (slotRects frst x d wps).filter (fun e => decide (minw ≤ e.width))) ∧
    (0 ≤ wps → (renderChildren frst x d 0 wps).length = forestSize frst) :=
  ⟨fun e he => renderChildren_width_ge frst x d minw wps e he,
   renderChildren_filter_depth frst x d minw wps,
   fun hw => renderChildren_minw_zero_length frst x d wps hw⟩

/-- C9 witness: the omission rule applied to a one-node forest with
`width_per_sample = 1` and `min_width = 0`: the emitted entry's width
clears the threshold and every node (one) is emitted. -/
theorem svg_child_omission_rule_witness :
    (mkRat 0 1 ≤ (⟨Frame.ofName "a".data, mkRat 0 1, mkRat 1 1, 1⟩ : FrameRect).width) ∧
    (renderChildren (.node (Frame.ofName "a".data) 1 1 1 .nil .nil)
      (mkRat 0 1) 1 0 (mkRat 1 1)).length =
      forestSize (.node (Frame.ofName "a".data) 1 1 1 .nil .nil) :=
  ⟨(svg_child_omission_rule (.node (Frame.ofName "a".data) 1 1 1 .nil .nil)
      (mkRat 0 1) 1 (mkRat 0 1) (mkRat 1 1)).1
      ⟨Frame.ofName "a".data, mkRat 0 1, mkRat 1 1, 1⟩ (by decide),
   (svg_child_omission_rule (.node (Frame.ofName "a".data) 1 1 1 .nil .nil)
      (mkRat 0 1) 1 (mkRat 0 1) (mkRat 1 1)).2.2 (by decide)⟩

/-- C10: `get_or_create_child` is idempotent up to `Frame::operator==`:
for any node and any two frames that compare equal (same name, kind and
bracket flag — the cached hash memo may differ), the second call returns
the same child as the first and leaves the node completely unchanged. -/
theorem get_or_create_child_idempotent (d : NodeData) (f1 f2 : Frame)
    (h : frameBEq f1 f2 = true) :
    (getOrCreateChild (getOrCreateChild d f1).1 f2).1 = (getOrCreateChild d f1).1 ∧
    (getOrCreateChild (getOrCreateChild d f1).1 f2).2 = (getOrCreateChild d f1).2 := by
  cases hf : gocFind d.children f1 with
  | some fc =>
    have h2 : gocFind d.children f2 = some fc := by
      rw [← gocFind_congr d.children f1 f2 h, hf]
    simp only [getOrCreateChild, hf, h2]
    exact ⟨trivial, trivial⟩
  | none =>
    have h2 : gocFind (setChild d.children f1 freshNode) f2 =
        some (f1, freshNode) := gocFind_setChild_fresh d.children f1 f2 freshNode hf h
    simp only [getOrCreateChild, hf, h2]
    exact ⟨trivial, trivial⟩

/-- C10 witness: the idempotence law at a concrete node and two equal
frames that differ only in the cached hash memo. -/
theorem get_or_create_child_idempotent_witness :
    frameBEq ⟨"a".data, true, false, 0⟩ ⟨"a".data, true, false, 7⟩ = true ∧
    ((getOrCreateChild (getOrCreateChild ⟨0, 0, 1, .nil⟩ ⟨"a".data, true, false, 0⟩).1
        ⟨"a".data, true, false, 7⟩).1 =
      (getOrCreateChild ⟨0, 0, 1, .nil⟩ ⟨"a".data, true, false, 0⟩).1 ∧
     (getOrCreateChild (getOrCreateChild ⟨0, 0, 1, .nil⟩ ⟨"a".data, true, false, 0⟩).1
        ⟨"a".data, true, false, 7⟩).2 =
      (getOrCreateChild ⟨0, 0, 1, .nil⟩ ⟨"a".data, true, false, 0⟩).2) :=
  ⟨by decide,
   get_or_create_child_idempotent ⟨0, 0, 1, .nil⟩ ⟨"a".data, true, false, 0⟩
     ⟨"a".data, true, false, 7⟩ (by decide)⟩

end FlameCrafter
